import Mathlib

/-
Verification of the ASPython project model (ASTools.py): the XML manifest
layer, the library export engine with its dependency traversal, the
directory-synchronization algorithms, and the task-deployment table.

Each Python construct is embedded shallowly:
  * `xml.etree` element attributes become ordered association lists
    (`List (String × String)`); `Element.get`/`Element.set` become
    `getAttr`/`setAttr` (set replaces in place, or appends — matching
    `dict` insertion-order semantics of ET attributes).
  * Filesystem paths become segment lists (`List String`);
    `os.path.basename`/`dirname`/`join` become `basename`/`dirname`/`++`.
  * The filesystem itself is a parameter (`FS`): `os.path.exists` and
    `os.path.isdir` are supplied as functions, so theorems quantify over
    filesystem states.
  * Python exceptions become an `ExnKind` inductive plus `Except`;
    `try/except (FileNotFoundError, FileExistsError)` becomes a match on
    the raised kind.
  * Unbounded recursion (`Project.exportLibrary`) is given an explicit
    recursion-depth budget; exhausting every budget is the embedding of
    non-termination, and the Python recursion consumes one unit of depth
    exactly where a Python stack frame is pushed.
-/

namespace ASPython

/-! ## ElementTree attribute model -/

def getAttr (attrs : List (String × String)) (k : String) : Option String :=
  (attrs.find? (fun kv => kv.1 == k)).map (·.2)

def setAttr (attrs : List (String × String)) (k v : String) : List (String × String) :=
  if attrs.any (fun kv => kv.1 == k) then
    attrs.map (fun kv => if kv.1 == k then (k, v) else kv)
  else
    attrs ++ [(k, v)]

/-! ## Paths and the filesystem parameter -/

/-- A filesystem path as a list of segments (`os.path.join` is `++`). -/
abbrev FsPath := List String

/-- `os.path.basename` -/
def basename (p : FsPath) : String := p.getLast?.getD ""

/-- `os.path.dirname` -/
def dirname (p : FsPath) : FsPath := p.dropLast

/-- Rendering of a path as the single string `os.path.abspath` returns. -/
def pathString (p : FsPath) : String := String.intercalate "/" p

/-- The filesystem state, as far as `ASTools` queries it. -/
structure FS where
  pathExists : FsPath → Bool
  isDir : FsPath → Bool

/-! ## Exceptions

`ExnKind` classifies the exceptions that `ASTools` raises or catches:
`FileNotFoundError`, `FileExistsError`, and everything else that a
filesystem call can raise (`PermissionError`, the bare `Exception`
re-raised by `Library._rmtreeOnError`, ...). -/

inductive ExnKind where
  | fileNotFound
  | fileExists
  | otherError
deriving DecidableEq

/-! ## `getLibraryType` / `getProgramType` / `getPkgType` (ASTools.py:1266-1301) -/

def getLibraryType (fs : FS) (path : FsPath) : String :=
  if fs.pathExists (path ++ ["ANSIC.lby"]) then "ANSIC"
  else if fs.pathExists (path ++ ["IEC.lby"]) then "IEC"
  else if fs.pathExists (path ++ ["Binary.lby"]) then "Binary"
  else "None"

def getProgramType (fs : FS) (path : FsPath) : String :=
  if fs.pathExists (path ++ ["ANSIC.prg"]) then "ANSIC"
  else if fs.pathExists (path ++ ["IEC.prg"]) then "IEC"
  else if fs.pathExists (path ++ ["Binary.prg"]) then "Binary"
  else "None"

/-- `getPkgType` raises `FileNotFoundError` when the path does not exist;
an existing non-directory is a `File`. -/
def getPkgType (fs : FS) (path : FsPath) : Except ExnKind String :=
  if fs.pathExists path = false then .error .fileNotFound
  else if fs.isDir path then
    if getLibraryType fs path ≠ "None" then .ok "Library"
    else if getProgramType fs path ≠ "None" then .ok "Program"
    else .ok "Package"
  else .ok "File"

/-! ## Manifest entry elements

`ObjElem` is one child element of a manifest's object list (`Object`,
`File`, or `Dependency`): a tag (namespace prefix elided — it is applied
uniformly via `nameSpaceFormatted`), attributes, and text.  The trailing
`tail = "\n"` every creator sets is not tracked here; it never carries
content. -/

structure ObjElem where
  tag : String
  attrs : List (String × String)
  text : String
deriving DecidableEq

/-- `Package._createElement` (ASTools.py:1048-1065).  The `Language`
attribute is added for `Library`/`Program` kinds; `Reference` (when
requested) is inserted first, matching dict insertion order. -/
def packageCreateElement (fs : FS) (path : FsPath) (reference : Bool) :
    Except ExnKind ObjElem := do
  let t ← getPkgType fs path
  let attrs := if reference then [("Reference", "True")] else []
  let attrs := attrs ++ [("Type", t)]
  let attrs := if t == "Library" then attrs ++ [("Language", getLibraryType fs path)] else attrs
  let attrs := if t == "Program" then attrs ++ [("Language", getProgramType fs path)] else attrs
  pure { tag := "Object", attrs := attrs
         text := if reference then pathString path else basename path }

/-- `Package._addPkgObject(path)` with no element supplied builds the element
from the path; its `reference` parameter defaults to `False`. -/
def packageAddPkgObject (fs : FS) (path : FsPath) : Except ExnKind ObjElem :=
  packageCreateElement fs path false

/-- `Package.addObject(path, reference)` (ASTools.py:992-1002): whether the
call copies anything into the package directory, and the element it appends.
The copy happens only when the object is outside the directory *and*
`reference` is false; the element is always built by
`self._addPkgObject(newPath)`, which does not receive `reference`. -/
def packageAddObject (fs : FS) (dirPath : FsPath) (path : FsPath) (reference : Bool) :
    Bool × Except ExnKind ObjElem :=
  let name := basename path
  let newPath := dirPath ++ [name]
  let copies := if dirname path = dirPath then false else !reference
  (copies, packageAddPkgObject fs newPath)

/-! ## Export result aggregation (ASTools.py:213-245) -/

structure LibExportInfo where
  name : String
  exception : Option ExnKind
deriving DecidableEq

structure ProjectExportInfo where
  success : List LibExportInfo
  failed : List LibExportInfo
deriving DecidableEq

def emptyExportInfo : ProjectExportInfo := ⟨[], []⟩

/-- `ProjectExportInfo.addLibInfo` -/
def addLibInfo (agg : ProjectExportInfo) (info : LibExportInfo) : ProjectExportInfo :=
  if info.exception = none then { agg with success := agg.success ++ [info] }
  else { agg with failed := agg.failed ++ [info] }

/-- `ProjectExportInfo.extend` (one argument) -/
def extendInfo (agg other : ProjectExportInfo) : ProjectExportInfo :=
  ⟨agg.success ++ other.success, agg.failed ++ other.failed⟩

/-! ## `Library.export` (ASTools.py:455-478) and `_rmtreeOnError` (595-613) -/

/-- `Library._rmtreeOnError`: on a path without write access it chmods and
retries (the retry's outcome is whatever `func(path)` then does); on a path
that *does* have write access it re-raises a bare `Exception`, which is not
a `FileNotFoundError`/`FileExistsError`. -/
def rmtreeOnError (writable : Bool) (retryOutcome : Option ExnKind) : Option ExnKind :=
  if !writable then retryOutcome else some .otherError

/-- The outcome of `Library.export`'s `try` block: the conditional
`shutil.rmtree` (when `overwrite` and the destination exists) followed by
the collect step (`_collectBinaryLibrary` or `_collectSourceLibrary`).
`none` = no exception; `some e` = first exception raised. -/
def exportBodyOutcome (overwrite pathExistsAtDest : Bool)
    (rmtreeOutcome collectOutcome : Option ExnKind) : Option ExnKind :=
  if overwrite && pathExistsAtDest then
    match rmtreeOutcome with
    | some e => some e
    | none => collectOutcome
  else collectOutcome

/-- `Library.export`: the `except (FileNotFoundError, FileExistsError)`
clause captures exactly those two kinds into `info.exception`; any other
exception escapes the function. -/
def libraryExport (name : String) (body : Option ExnKind) :
    Except ExnKind LibExportInfo :=
  match body with
  | none => .ok ⟨name, none⟩
  | some e =>
    if e = .fileNotFound ∨ e = .fileExists then .ok ⟨name, some e⟩
    else .error e

/-- `Project.exportLibraries`' accumulation loop (ASTools.py:755-761) over an
already-selected export list: each library is exported and its info added to
the aggregate; an exception escaping `Library.export` aborts the loop. -/
def exportLibrariesBatch (libs : List (String × Option ExnKind))
    (agg : ProjectExportInfo) : Except ExnKind ProjectExportInfo :=
  match libs with
  | [] => .ok agg
  | (name, body) :: rest =>
    match libraryExport name body with
    | .ok info => exportLibrariesBatch rest (addLibInfo agg info)
    | .error e => .error e

/-! ## The project model and the dependency-aware export engine

`Project.exportLibrary` (ASTools.py:763-780) recursively exports the
dependency closure.  Python has no depth bound; the embedding makes the
recursion depth an explicit budget `fuel`, consumed exactly where Python
pushes a stack frame (one unit per recursive `exportLibrary` call).
`ExportResult.outOfDepth` means the run did not complete within the given
depth — `∀ fuel, ... = outOfDepth` is the embedding of non-termination. -/

/-- `fnmatch.fnmatch` restricted to the `*`/`?` wildcards, which are the only
ones `ASTools` ignore lists use.  (On Windows `fnmatch` also lowercases both
sides; every input in this file is unchanged by that normalization.)
Structured over an explicit recursion bound so that it evaluates inside the
kernel; every recursive call shrinks `pat.length + str.length`, so a bound
above that sum is never exhausted. -/
def globMatchAux : Nat → List Char → List Char → Bool
  | 0, _, _ => false
  | Nat.succ n, pat, str =>
    match pat, str with
    | [], [] => true
    | '*' :: ps, [] => globMatchAux n ps []
    | _ :: _, [] => false
    | [], _ :: _ => false
    | p :: ps, c :: cs =>
      if p = '*' then globMatchAux n ps (c :: cs) || globMatchAux n (p :: ps) cs
      else if p = '?' then globMatchAux n ps cs
      else p == c && globMatchAux n ps cs

def globMatch (pat str : List Char) : Bool :=
  globMatchAux (pat.length + str.length + 1) pat str

def fnmatchStr (name pat : String) : Bool := globMatch pat.toList name.toList

/-- `Project._checkIgnore` (ASTools.py:691-695): sequentially filters the
name list through each glob; a `None` ignore list is a no-op. -/
def checkIgnoreList (names : List String) (ignores : List String) : List String :=
  ignores.foldl (fun ns ig => ns.filter (fun n => !fnmatchStr n ig)) names

def checkIgnore (names : List String) (ignores : Option (List String)) : List String :=
  match ignores with
  | none => names
  | some igs => checkIgnoreList names igs

/-- `Project.cacheIgnore` (ASTools.py:686) -/
def cacheIgnore : List String :=
  ["_AS", "Acp10*", "Arnc0*", "Mapp*", "Motion", "TRF_LIB", "Mp*", "As*"]

/-- A discovered library, reduced to what the export traversal reads:
its name and its declared dependency names (`Library.dependencyNames`). -/
structure PLib where
  name : String
  deps : List String
deriving DecidableEq

/-- A `Project` as the export engine sees it: the discovered library list
(in discovery order) plus, as the filesystem abstraction, the outcome of
each library's `Library.export` try-block (`none` = the copy succeeds). -/
structure Proj where
  libraries : List PLib
  exportOutcome : String → Option ExnKind

/-- `Project.getLibrariesByName` (ASTools.py:855-861): keeps the project's
libraries whose name occurs in the list — a silent filter, in project
order, raising nothing for names that resolve to no library. -/
def getLibrariesByName (p : Proj) (libNames : List String) : List PLib :=
  p.libraries.filter (fun lib => libNames.contains lib.name)

/-- The dependency-resolution prefix of `Project.exportLibrary`:
filter the declared names through the caller's ignore list, then through
`cacheIgnore`, then resolve to known libraries. -/
def resolveDeps (p : Proj) (ignores : Option (List String)) (library : PLib) : List PLib :=
  getLibrariesByName p (checkIgnoreList (checkIgnore library.deps ignores) cacheIgnore)

inductive ExportResult where
  | outOfDepth
  | raised (e : ExnKind)
  | done (info : ProjectExportInfo)
deriving DecidableEq

mutual

/-- `Project.exportLibrary(library, ..., withDependencies)` with an explicit
recursion-depth budget.  With dependencies, each resolved dependency is
exported recursively (accumulating via `extend`) before the library itself
is exported and added. -/
def exportLibraryFuel (p : Proj) (ignores : Option (List String)) :
    Nat → PLib → Bool → ExportResult
  | 0, _, _ => .outOfDepth
  | Nat.succ f, library, withDependencies =>
    let afterDeps : ExportResult :=
      if withDependencies then exportDepsFuel p ignores f (resolveDeps p ignores library)
      else .done emptyExportInfo
    match afterDeps with
    | .done info =>
      match libraryExport library.name (p.exportOutcome library.name) with
      | .ok r => .done (addLibInfo info r)
      | .error e => .raised e
    | other => other

/-- The `for dep in dependencies` loop of `Project.exportLibrary`: each
recursive call is a fresh Python frame at the same loop depth, so it runs
with the budget `fuel` the caller already decremented. -/
def exportDepsFuel (p : Proj) (ignores : Option (List String)) :
    Nat → List PLib → ExportResult
  | _, [] => .done emptyExportInfo
  | f, d :: ds =>
    match exportLibraryFuel p ignores f d true with
    | .done r =>
      match exportDepsFuel p ignores f ds with
      | .done rest => .done (extendInfo r rest)
      | other => other
    | other => other

end

/-! ## Library manifest object lists (`Library`, ASTools.py:374-522)

A library manifest's object list: the list element's tag (`Files` or
`Objects`, cached as `self._xmlTag`) and its children.  The child tag is
always the list tag minus its final `s` (`self._xmlTagChild`), which the
code keeps in lockstep with the list tag, so only the list tag is stored. -/

structure LibList where
  listTag : String
  children : List ObjElem
deriving DecidableEq

/-- `Library._createPkgElement` (ASTools.py:562-573), with the results of
the `getPkgType`/`getLibraryType`/`getProgramType` filesystem probes passed
in (`typ`, `lang`); `name` is `os.path.split(path)[1]`. -/
def createPkgElementCore (tag typ lang name : String) : ObjElem :=
  { tag := tag
    attrs := [("Type", typ)] ++
      (if typ == "Library" || typ == "Program" then [("Language", lang)] else [])
    text := name }

/-- `Library._convertXmlTag` (ASTools.py:509-522): retag the list element
and every child, and — when converting to `Objects` — set `Type=File` on
*every* child of the converted list. -/
def convertXmlTag (m : LibList) (fromTag toTag : String) : LibList :=
  let childTag := toTag.dropRight 1
  if m.listTag = fromTag then
    { listTag := toTag
      children := m.children.map (fun c =>
        let c' := { c with tag := childTag }
        if toTag = "Objects" then { c' with attrs := setAttr c'.attrs "Type" "File" } else c') }
  else m

/-- `Library._addObjectElement` (ASTools.py:443-447): append the created
element; if its `Type` is `Package` and the list is not already
`Objects`-tagged, convert the whole list. -/
def addObjectElementCore (m : LibList) (typ lang name : String) : LibList :=
  let element := createPkgElementCore (m.listTag.dropRight 1) typ lang name
  let m' := { m with children := m.children ++ [element] }
  if getAttr element.attrs "Type" = some "Package" ∧ m.listTag ≠ "Objects" then
    convertXmlTag m' m'.listTag "Objects"
  else m'

/-- `Library._addObjectElement` with the filesystem probes performed by
`_createPkgElement` made explicit (`getPkgType` raises on a missing path). -/
def libraryAddObjectElement (fs : FS) (m : LibList) (path : FsPath) :
    Except ExnKind LibList := do
  let t ← getPkgType fs path
  pure (addObjectElementCore m t
    (if t == "Library" then getLibraryType fs path else getProgramType fs path)
    (basename path))

/-! ## `Library.synchronize` (ASTools.py:480-507) -/

/-- `os.path.splitext(s)[1]`: the extension starts at the last dot, unless
every character before that dot is itself a dot. -/
def splitextExt (s : String) : String :=
  let cs := s.toList
  match cs.reverse.findIdx? (· = '.') with
  | none => ""
  | some j =>
    let i := cs.length - 1 - j
    if (cs.take i).all (· = '.') then "" else String.mk (cs.drop i)

/-- The body of `Library.synchronize`'s add loop: skip items already
represented (`usedItems`), the `.lby` manifest file, and the reserved
source-group folders; `_addObjectElement` everything else. -/
def synchronizeStep (typeOf langOf : String → String) (usedItems : List String)
    (acc : LibList) (item : String) : LibList :=
  if usedItems.contains item then acc
  else if splitextExt item == ".lby" then acc
  else if item == "SG4" || item == "SG3" || item == "SGC" then acc
  else addObjectElementCore acc (typeOf item) (langOf item) item

/-- `Library.synchronize`: drop manifest entries whose text no longer names
a directory item, then append an entry for each item not yet represented,
except the `.lby` manifest itself and the reserved `SG4`/`SG3`/`SGC`
folders.  `typeOf`/`langOf` supply the filesystem kind probes for the items
being added (each such item was just listed, so `getPkgType` succeeds). -/
def librarySynchronize (items : List String) (typeOf langOf : String → String)
    (m : LibList) : LibList :=
  let kept := m.children.filter (fun o => items.contains o.text)
  let usedItems := kept.map (·.text)
  let base : LibList := { m with children := kept }
  items.foldl (synchronizeStep typeOf langOf usedItems) base

/-- The entries a `Library.synchronize` call removes from the manifest. -/
def syncRemoved (items : List String) (m : LibList) : List ObjElem :=
  m.children.filter (fun o => !items.contains o.text)

/-- Whether `Library.synchronize`'s add loop appends an entry for `item`. -/
def syncAddable (usedItems : List String) (item : String) : Bool :=
  !usedItems.contains item && !(splitextExt item == ".lby") &&
    !(item == "SG4" || item == "SG3" || item == "SGC")

/-- The item names a `Library.synchronize` call appends to the manifest. -/
def syncAppended (items : List String) (m : LibList) : List String :=
  let usedItems := (m.children.filter (fun o => items.contains o.text)).map (·.text)
  items.filter (syncAddable usedItems)

/-! ## `Package.synchPackageFile` (ASTools.py:967-990)

Both of its loops iterate over the live child list of the `Objects`
element while `list.remove` shrinks it, so they are embedded as Python's
actual iteration protocol: an index that advances by one per step over the
mutating list (when an element before the cursor is removed, the element
that slides into the cursor's old position is skipped).  The step budget is
the initial length, which bounds the number of iterations because the index
grows and the list never does. -/

def removeFirstEntry : List ObjElem → ObjElem → List ObjElem
  | [], _ => []
  | c :: rest, x => if c = x then rest else c :: removeFirstEntry rest x

/-- `Package._removePkgObject(name)` (ASTools.py:1027-1031): the
`for child in self.objects: if child.text == name: self.objects.remove(child)`
loop. -/
def removePkgObjectLoop : Nat → Nat → String → List ObjElem → List ObjElem
  | 0, _, _, cs => cs
  | Nat.succ n, i, name, cs =>
    match cs[i]? with
    | none => cs
    | some c =>
      if c.text = name then removePkgObjectLoop n (i+1) name (removeFirstEntry cs c)
      else removePkgObjectLoop n (i+1) name cs

def removePkgObject (name : String) (cs : List ObjElem) : List ObjElem :=
  removePkgObjectLoop cs.length 0 name cs

/-- The `for element in self.objects` loop of `Package.synchPackageFile`:
stale entries trigger `_removePkgObject` (which mutates the list being
iterated); fresh entries are recorded in `objsText`. -/
def synchOuterLoop : Nat → Nat → List String → List ObjElem → List String →
    List ObjElem × List String
  | 0, _, _, cs, objsText => (cs, objsText)
  | Nat.succ n, i, items, cs, objsText =>
    match cs[i]? with
    | none => (cs, objsText)
    | some e =>
      if items.contains e.text then synchOuterLoop n (i+1) items cs (objsText ++ [e.text])
      else synchOuterLoop n (i+1) items (removePkgObject e.text cs) objsText

/-- The `for item in items` add loop of `Package.synchPackageFile`: skip the
package file itself and anything recorded in `objsText`; append a
`_createElement`-built entry otherwise. -/
def synchAddLoop (pkgFileName : String) (typeOf langOf : String → String)
    (objsText : List String) (items : List String) (cs : List ObjElem) : List ObjElem :=
  items.foldl (fun acc item =>
    if item = pkgFileName then acc
    else if objsText.contains item then acc
    else acc ++ [createPkgElementCore "Object" (typeOf item) (langOf item) item]) cs

def synchPackageFile (pkgFileName : String) (items : List String)
    (typeOf langOf : String → String) (cs : List ObjElem) : List ObjElem :=
  let r := synchOuterLoop cs.length 0 items cs []
  synchAddLoop pkgFileName typeOf langOf r.2 items r.1

/-! ## `xmlAsFile.write` / `_indentXml` (ASTools.py:276-363)

`write()` re-derives the namespace from the current root tag, registers it,
runs `_indentXml` over the tree, and serializes.  `Xml` is a full element:
tag (namespace-qualified for the root), attributes, text, tail, children. -/

structure Xml where
  tag : String
  attrs : List (String × String)
  text : Option String
  tail : Option String
  children : List Xml

/-- Python's `not s or not s.strip()`: absent, empty, or whitespace-only. -/
def blankText : Option String → Bool
  | none => true
  | some s => s.trim == ""

/-- `"\n" + level*"  "` -/
def indentStr (level : Nat) : String :=
  "\n" ++ String.join (List.replicate level "  ")

def condSetTail (i : String) (c : Xml) : Xml :=
  if blankText c.tail then { c with tail := some i } else c

/-- After `for elem in elem` the loop variable is the *last child*, so the
trailing `if not elem.tail ...: elem.tail = i` retargets the last child's
tail to the parent's indent. -/
def setLastTail (i : String) : List Xml → List Xml
  | [] => []
  | [c] => [condSetTail i c]
  | c :: c2 :: cs => c :: setLastTail i (c2 :: cs)

mutual

/-- `xmlAsFile._indentXml` (ASTools.py:337-352). -/
def indentXml (level : Nat) : Xml → Xml
  | ⟨tag, attrs, text, tail, children⟩ =>
    let i := indentStr level
    match children with
    | [] =>
      ⟨tag, attrs, text, if level ≠ 0 && blankText tail then some i else tail, []⟩
    | c :: cs =>
      ⟨tag, attrs,
       if blankText text then some (i ++ "  ") else text,
       if blankText tail then some i else tail,
       setLastTail i (indentChildren (level + 1) (c :: cs))⟩

def indentChildren (level : Nat) : List Xml → List Xml
  | [] => []
  | c :: cs => indentXml level c :: indentChildren level cs

end

/-- `xmlAsFile._getASNamespace` (ASTools.py:354-363) on a root tag. -/
def getASNamespaceOfTag (tag : String) : String :=
  match tag.splitOn "\x7d" with
  | [] => ""
  | p :: _ => if p.startsWith "\x7b" then p.drop 1 else ""

mutual

/-- `b` preserves `a` up to re-indentation: same tag, same attributes, and
any non-whitespace text or tail is kept verbatim, recursively. -/
def consistentXml : Xml → Xml → Bool
  | ⟨tag, attrs, text, tail, children⟩, b =>
    tag == b.tag && attrs == b.attrs &&
    (blankText text || text == b.text) &&
    (blankText tail || tail == b.tail) &&
    consistentChildren children b.children

def consistentChildren : List Xml → List Xml → Bool
  | [], [] => true
  | a :: xs, b :: ys => consistentXml a b && consistentChildren xs ys
  | _, _ => false

end

/-! ## `SwDeploymentTable` (ASTools.py:1088-1186) -/

/-- A top-level element of the task-deployment table, as `__init__` sees
it: tag plus attributes (children are irrelevant to the load invariant). -/
structure SwElem where
  tag : String
  attrs : List (String × String)
deriving DecidableEq

/-- `list.insert` — Python clamps an out-of-range index. -/
def insertAt (cs : List SwElem) (idx : Nat) (e : SwElem) : List SwElem :=
  cs.take idx ++ e :: cs.drop idx

def taskClassElem (n : Nat) : SwElem :=
  ⟨"TaskClass", [("Name", "Cyclic#" ++ toString n)]⟩

def librariesElem : SwElem := ⟨"Libraries", []⟩

/-- `self.find(f"TaskClass[@Name='Cyclic#...']")` over the root children. -/
def findTaskClass (cs : List SwElem) (nm : String) : Option SwElem :=
  cs.find? (fun e => e.tag == "TaskClass" && getAttr e.attrs "Name" == some nm)

/-- One pass of the `for i in range(8)` loop of `SwDeploymentTable.__init__`:
a missing `Cyclic#(i+1)` class is inserted at index `i`
(`_addRootLevelElement('TaskClass', i, ...)`, ASTools.py:1172-1179). -/
def swInitStep (cs : List SwElem) (i : Nat) : List SwElem :=
  match findTaskClass cs ("Cyclic#" ++ toString (i + 1)) with
  | some _ => cs
  | none => insertAt cs i (taskClassElem (i + 1))

/-- `SwDeploymentTable.__init__` (ASTools.py:1089-1104) after the document
is read: ensure the eight cyclic classes, then append a `Libraries` element
if none exists. -/
def swDeploymentInit (cs : List SwElem) : List SwElem :=
  let cs := (List.range 8).foldl swInitStep cs
  match cs.find? (fun e => e.tag == "Libraries") with
  | some _ => cs
  | none => cs ++ [librariesElem]

def containsTaskClass (cs : List SwElem) (n : Nat) : Bool :=
  cs.any (fun e => e.tag == "TaskClass" && getAttr e.attrs "Name" == some ("Cyclic#" ++ toString n))

def containsLibrariesNode (cs : List SwElem) : Bool :=
  cs.any (fun e => e.tag == "Libraries")

/-! ## `SwDeploymentTable.deployTask` / `_createTaskElement` (ASTools.py:1117-1164) -/

/-- A `TaskClass` node with its deployed `Task` children (each Task is its
attribute list). -/
structure TaskClassNode where
  name : String
  tasks : List (List (String × String))
deriving DecidableEq

/-- `SwDeploymentTable._createTaskElement`: the `Name` attribute is
`taskName[:10]`; `Source` is the dot-joined folder path plus name plus
`prg`; `language` is sniffed from the task folder (passed in). -/
def createTaskElementAttrs (taskFolderParts : List String)
    (taskName language memory : String) : List (String × String) :=
  [("Name", taskName.take 10),
   ("Source", String.intercalate "." (taskFolderParts ++ [taskName, "prg"])),
   ("Memory", memory), ("Language", language), ("Debugging", "true")]

/-- `SwDeploymentTable.deployTask`: the scheduling class is resolved from
the *first digit* of `taskClass`; deployment is skipped when a task with
the truncated name already exists under that class.  (A class name with no
digit would make Python raise `IndexError`; no `ASTools` caller passes
one, and the claims do not either — embedded as a no-op.) -/
def deployTask (table : List TaskClassNode) (taskFolderParts : List String)
    (taskName taskClass language : String) : List TaskClassNode :=
  match (taskClass.toList.filter Char.isDigit).head? with
  | none => table
  | some d =>
    let cyclicName := "Cyclic#".push d
    table.map (fun tc =>
      if tc.name = cyclicName then
        if tc.tasks.any (fun t => getAttr t "Name" == some (taskName.take 10)) then tc
        else { tc with
               tasks := tc.tasks ++ [createTaskElementAttrs taskFolderParts taskName language "UserROM"] }
      else tc)

/-- A freshly-initialized deployment table: the eight classes, no tasks. -/
def initialSwTable : List TaskClassNode :=
  (List.range 8).map (fun i => ⟨"Cyclic#" ++ toString (i + 1), []⟩)

/-! # Concrete scenarios -/

/-- The cyclic dependency graph `A → B → A` of spec §8.8. -/
def cycProj : Proj := ⟨[⟨"A", ["B"]⟩, ⟨"B", ["A"]⟩], fun _ => none⟩

/-- A project whose libraries `x`, `y`, `z` form the chain `x → y → z`. -/
def chainProjOf (x y z : String) : Proj := ⟨[⟨x, [y]⟩, ⟨y, [z]⟩, ⟨z, []⟩], fun _ => none⟩

/-- A project whose only library `X` declares a dependency on `Y`, which no
library of the project satisfies. -/
def missProj : Proj := ⟨[⟨"X", ["Y"]⟩], fun _ => none⟩

theorem checkIgnoreList_nil (igs : List String) : checkIgnoreList [] igs = [] := by
  induction igs with
  | nil => rfl
  | cons i rest ih => simpa [checkIgnoreList, List.foldl] using ih

/-! # Claim theorems -/

/-- C1: with a dependency cycle reachable from `A` (`A → B → A`),
`Project.exportLibrary(A, withDependencies=True)` never completes: the
traversal has no cycle detection and no depth bound, so for *every*
recursion-depth budget the run exhausts the budget instead of returning. -/
theorem exportLibrary_cycle_never_completes :
    ∀ fuel, exportLibraryFuel cycProj none fuel ⟨"A", ["B"]⟩ true = .outOfDepth := by
  have hA : resolveDeps cycProj none ⟨"A", ["B"]⟩ = [⟨"B", ["A"]⟩] := by decide
  have hB : resolveDeps cycProj none ⟨"B", ["A"]⟩ = [⟨"A", ["B"]⟩] := by decide
  have key : ∀ fuel, exportLibraryFuel cycProj none fuel ⟨"A", ["B"]⟩ true = .outOfDepth ∧
      exportLibraryFuel cycProj none fuel ⟨"B", ["A"]⟩ true = .outOfDepth := by
    intro fuel
    induction fuel with
    | zero => exact ⟨by simp [exportLibraryFuel], by simp [exportLibraryFuel]⟩
    | succ f ih =>
      refine ⟨?_, ?_⟩
      · simp [exportLibraryFuel, exportDepsFuel, hA, ih.2]
      · simp [exportLibraryFuel, exportDepsFuel, hB, ih.1]
  exact fun fuel => (key fuel).1

/-- C3: for a project with libraries `x → y → z` (all discovered, the
dependency names surviving the ignore filters), `exportLibrary(x,
withDependencies=True)` completes at any depth budget ≥ 3 with the
aggregate's success list in export order `[z, y, x]` — each dependency
exported before its dependent — and the aggregate holds exactly 3 entries
(3 successes, 0 failures). -/
theorem exportLibrary_chain_order (x y z : String)
    (hxy : x ≠ y) (hxz : x ≠ z) (hyz : y ≠ z)
    (hy : checkIgnoreList [y] cacheIgnore = [y])
    (hz : checkIgnoreList [z] cacheIgnore = [z]) (fuel : Nat) :
    exportLibraryFuel (chainProjOf x y z) none (fuel + 3) ⟨x, [y]⟩ true =
      .done ⟨[⟨z, none⟩, ⟨y, none⟩, ⟨x, none⟩], []⟩ ∧
    (⟨[⟨z, none⟩, ⟨y, none⟩, ⟨x, none⟩], []⟩ : ProjectExportInfo).success.length +
      (⟨[⟨z, none⟩, ⟨y, none⟩, ⟨x, none⟩], []⟩ : ProjectExportInfo).failed.length = 3 := by
  have h1 : resolveDeps (chainProjOf x y z) none ⟨x, [y]⟩ = [⟨y, [z]⟩] := by
    simp [resolveDeps, checkIgnore, hy, getLibrariesByName, chainProjOf, List.contains,
      List.filter, beq_iff_eq, hxy, hyz, Ne.symm hxy, Ne.symm hyz]
  have h2 : resolveDeps (chainProjOf x y z) none ⟨y, [z]⟩ = [⟨z, []⟩] := by
    simp [resolveDeps, checkIgnore, hz, getLibrariesByName, chainProjOf, List.contains,
      List.filter, beq_iff_eq, hxz, hyz, Ne.symm hxz, Ne.symm hyz]
  have h3 : resolveDeps (chainProjOf x y z) none ⟨z, []⟩ = [] := by
    simp [resolveDeps, checkIgnore, checkIgnoreList_nil, getLibrariesByName, chainProjOf,
      List.contains, List.filter]
  have ho : ∀ s, (chainProjOf x y z).exportOutcome s = none := fun _ => rfl
  refine ⟨?_, rfl⟩
  simp [exportLibraryFuel, exportDepsFuel, h1, h2, h3, ho, libraryExport, addLibInfo,
    extendInfo, emptyExportInfo]

/-- C3 witness: the chain `X → Y → Z` at depth budget 3. -/
theorem exportLibrary_chain_order_witness :
    exportLibraryFuel (chainProjOf "X" "Y" "Z") none (0 + 3) ⟨"X", ["Y"]⟩ true =
      .done ⟨[⟨"Z", none⟩, ⟨"Y", none⟩, ⟨"X", none⟩], []⟩ ∧
    (⟨[⟨"Z", none⟩, ⟨"Y", none⟩, ⟨"X", none⟩], []⟩ : ProjectExportInfo).success.length +
      (⟨[⟨"Z", none⟩, ⟨"Y", none⟩, ⟨"X", none⟩], []⟩ : ProjectExportInfo).failed.length = 3 :=
  exportLibrary_chain_order "X" "Y" "Z" (by decide) (by decide) (by decide)
    (by decide) (by decide) 0

/-- C5 counterexample: in a project where `X` depends on `Y` and no library
named `Y` is known, `getLibrariesByName` resolves the surviving name to
nothing and `exportLibrary(X, withDependencies=True)` completes normally —
the result is `done`, not a raised `NotFound`; no error is raised at the
point of access and no entry for `Y` appears in the aggregate. -/
theorem exportLibrary_missing_dep_skipped_cex :
    getLibrariesByName missProj ["Y"] = [] ∧
    exportLibraryFuel missProj none 1 ⟨"X", ["Y"]⟩ true = .done ⟨[⟨"X", none⟩], []⟩ := by
  have hd : resolveDeps missProj none ⟨"X", ["Y"]⟩ = [] := by decide
  have ho : ∀ s, missProj.exportOutcome s = none := fun _ => rfl
  exact ⟨by decide, by
    simp [exportLibraryFuel, exportDepsFuel, hd, ho, libraryExport, addLibInfo, emptyExportInfo]⟩

/-- C5 (amended): a declared dependency name that resolves to no library
known to the project is silently dropped by the `getLibrariesByName`
filter: `exportLibrary` completes at every sufficient depth budget with an
aggregate containing only the libraries that did resolve (here just `X`),
and no exception outcome occurs. -/
theorem exportLibrary_missing_dep_skipped :
    ∀ fuel, exportLibraryFuel missProj none (fuel + 1) ⟨"X", ["Y"]⟩ true =
      .done ⟨[⟨"X", none⟩], []⟩ := by
  intro fuel
  have hd : resolveDeps missProj none ⟨"X", ["Y"]⟩ = [] := by decide
  have ho : ∀ s, missProj.exportOutcome s = none := fun _ => rfl
  simp [exportLibraryFuel, exportDepsFuel, hd, ho, libraryExport, addLibInfo, emptyExportInfo]

/-- C2 counterexample: not every filesystem exception is captured
per-item.  When `shutil.rmtree` fails on a path that *has* write access,
`_rmtreeOnError` re-raises a bare `Exception`; `Library.export`'s
`except (FileNotFoundError, FileExistsError)` clause does not match it, so
the exception escapes the export and aborts the whole batch before the
remaining libraries are attempted. -/
theorem libraryExport_other_exception_propagates :
    rmtreeOnError true none = some .otherError ∧
    libraryExport "LibA" (exportBodyOutcome true true (rmtreeOnError true none) none) =
      .error .otherError ∧
    exportLibrariesBatch [("LibA", some .otherError), ("LibB", none)] emptyExportInfo =
      .error .otherError :=
  ⟨rfl, rfl, rfl⟩

/-- C2 (amended): a `FileNotFoundError` or `FileExistsError` raised during
one library's export sequence is captured into the returned
`LibExportInfo.exception`, which lands the item in the aggregate's failed
list, and a batch containing such a library continues with the remaining
libraries; exceptions of any other kind propagate instead (see the
counterexample). -/
theorem libraryExport_captures_fileNotFound_fileExists (name : String) (e : ExnKind)
    (he : e = .fileNotFound ∨ e = .fileExists)
    (agg : ProjectExportInfo) (rest : List (String × Option ExnKind)) :
    libraryExport name (some e) = .ok ⟨name, some e⟩ ∧
    addLibInfo agg ⟨name, some e⟩ = { agg with failed := agg.failed ++ [⟨name, some e⟩] } ∧
    exportLibrariesBatch ((name, some e) :: rest) agg =
      exportLibrariesBatch rest { agg with failed := agg.failed ++ [⟨name, some e⟩] } := by
  have h1 : libraryExport name (some e) = .ok ⟨name, some e⟩ := by
    rcases he with rfl | rfl <;> simp [libraryExport]
  have h2 : addLibInfo agg ⟨name, some e⟩ =
      { agg with failed := agg.failed ++ [⟨name, some e⟩] } := by
    simp [addLibInfo]
  exact ⟨h1, h2, by simp [exportLibrariesBatch, h1, h2]⟩

/-- C2 witness: a `FileNotFoundError` during `LibA`'s export is captured
and recorded in the failed list, and the batch moves on. -/
theorem libraryExport_captures_witness :
    libraryExport "LibA" (some .fileNotFound) = .ok ⟨"LibA", some .fileNotFound⟩ ∧
    addLibInfo emptyExportInfo ⟨"LibA", some .fileNotFound⟩ =
      { emptyExportInfo with
        failed := emptyExportInfo.failed ++ [⟨"LibA", some .fileNotFound⟩] } ∧
    exportLibrariesBatch [("LibA", some .fileNotFound)] emptyExportInfo =
      exportLibrariesBatch []
        { emptyExportInfo with
          failed := emptyExportInfo.failed ++ [⟨"LibA", some .fileNotFound⟩] } :=
  libraryExport_captures_fileNotFound_fileExists "LibA" .fileNotFound (Or.inl rfl)
    emptyExportInfo []

/-- C10: `Package.addObject(path, reference=True)` performs no filesystem
copy, yet the created manifest entry is the very one a non-reference call
would append: the `reference` flag is not forwarded to `_addPkgObject`, so
whenever element creation succeeds the element has no `Reference`
attribute and its text is the target's base name (never an absolute
reference path). -/
theorem packageAddObject_reference_not_forwarded (fs : FS) (dirPath path : FsPath) :
    (packageAddObject fs dirPath path true).1 = false ∧
    (packageAddObject fs dirPath path true).2 = (packageAddObject fs dirPath path false).2 ∧
    ∀ el, (packageAddObject fs dirPath path true).2 = .ok el →
      getAttr el.attrs "Reference" = none ∧ el.text = basename path := by
  refine ⟨by simp [packageAddObject], rfl, ?_⟩
  intro el hel
  cases h : getPkgType fs (dirPath ++ [basename path]) with
  | error e =>
    simp [packageAddObject, packageAddPkgObject, packageCreateElement, h] at hel
  | ok t =>
    simp [packageAddObject, packageAddPkgObject, packageCreateElement, h] at hel
    subst hel
    constructor
    · by_cases hL : t = "Library" <;> by_cases hP : t = "Program" <;>
        simp [getAttr, hL, hP]
    · simp [basename, List.getLast?_concat]

/-- A filesystem for the C10 witness: `Pkg/Thing.var` exists as a file. -/
def refFS : FS := ⟨fun p => p == ["Pkg", "Thing.var"], fun _ => false⟩

/-- C10 witness: referencing `Other/Thing.var` into package `Pkg` copies
nothing, and the appended entry carries no `Reference` attribute and the
bare name `Thing.var`. -/
theorem packageAddObject_reference_witness :
    (packageAddObject refFS ["Pkg"] ["Other", "Thing.var"] true).1 = false ∧
    (getAttr (⟨"Object", [("Type", "File")], "Thing.var"⟩ : ObjElem).attrs "Reference" = none ∧
      (⟨"Object", [("Type", "File")], "Thing.var"⟩ : ObjElem).text =
        basename ["Other", "Thing.var"]) :=
  ⟨(packageAddObject_reference_not_forwarded refFS ["Pkg"] ["Other", "Thing.var"]).1,
   (packageAddObject_reference_not_forwarded refFS ["Pkg"] ["Other", "Thing.var"]).2.2
     ⟨"Object", [("Type", "File")], "Thing.var"⟩ rfl⟩

/-- A filesystem where `Lib/SubPkg` is a directory containing no library or
program manifest — `getPkgType` infers `Package`. -/
def subPkgFS : FS := ⟨fun p => p == ["Lib", "SubPkg"], fun p => p == ["Lib", "SubPkg"]⟩

/-- A `Files`-typed library manifest with one preexisting bare `File` child. -/
def filesManifest : LibList := ⟨"Files", [⟨"File", [], "a.st"⟩]⟩

/-- C4: evaluating `Library._addObjectElement` at the failing input.  Adding
an object inferred as `Package` to a `Files`-typed list does retag the list
to `Objects`, retag every child to `Object`, and give every child a `Type`
attribute — but `_convertXmlTag` runs *after* the new element is appended
and sets `Type="File"` on every child of the converted list, so the newly
added entry's inferred `Type="Package"` is overwritten with `Type="File"`
instead of being kept. -/
theorem addObjectElement_package_conversion_eval :
    getPkgType subPkgFS ["Lib", "SubPkg"] = .ok "Package" ∧
    libraryAddObjectElement subPkgFS filesManifest ["Lib", "SubPkg"] =
      .ok ⟨"Objects",
        [⟨"Object", [("Type", "File")], "a.st"⟩,
         ⟨"Object", [("Type", "File")], "SubPkg"⟩]⟩ :=
  ⟨rfl, rfl⟩

/-- A package manifest with entries `A`, `B`, `C`, of which only `C` still
exists in the directory. -/
def stalePkgEntries : List ObjElem :=
  [⟨"Object", [("Type", "File")], "A"⟩, ⟨"Object", [("Type", "File")], "B"⟩,
   ⟨"Object", [("Type", "File")], "C"⟩]

/-- C6: evaluating `Package.synchPackageFile` at the failing input.  With
stale entries `A`, `B` and directory listing `["C"]`, the first call removes
only `A` — removing while iterating slides `B` into the cursor's position,
so `B` is skipped and survives; `C` is recorded.  The second call then
removes `B`, but now `C` slides into the cursor's position, is never
recorded in `objsText`, and the add phase appends a duplicate `C`.  The
manifest after the second call (`C`, `C`) is not the manifest after the
first (`B`, `C`): the second call both removes and appends entries. -/
theorem synchPackageFile_second_call_changes_manifest :
    (synchPackageFile "Package.pkg" ["C"] (fun _ => "File") (fun _ => "")
        stalePkgEntries).map ObjElem.text = ["B", "C"] ∧
    (synchPackageFile "Package.pkg" ["C"] (fun _ => "File") (fun _ => "")
        (synchPackageFile "Package.pkg" ["C"] (fun _ => "File") (fun _ => "")
          stalePkgEntries)).map ObjElem.text = ["C", "C"] ∧
    (["C", "C"] : List String) ≠ ["B", "C"] :=
  ⟨rfl, rfl, by decide⟩

/-- C8 counterexample: deploying `"VeryLongTaskName123"` to `"Cyclic#3"`
produces a `Task` whose `Name` is `"VeryLongTa"` under `Cyclic#3` (and no
task anywhere else) — not `"VeryLongTas"`, which is 11 characters, one more
than the `taskName[:10]` truncation keeps. -/
theorem deployTask_truncation_cex :
    (deployTask initialSwTable ["TestProgram"] "VeryLongTaskName123" "Cyclic#3" "IEC").map
        (fun tc => (tc.name, tc.tasks.map (fun t => getAttr t "Name"))) =
      [("Cyclic#1", []), ("Cyclic#2", []), ("Cyclic#3", [some "VeryLongTa"]),
       ("Cyclic#4", []), ("Cyclic#5", []), ("Cyclic#6", []), ("Cyclic#7", []),
       ("Cyclic#8", [])] ∧
    "VeryLongTa" ≠ "VeryLongTas" :=
  ⟨rfl, by decide⟩

/-- C8 (amended): deploying `"VeryLongTaskName123"` to class `"Cyclic#3"`
creates, under the `TaskClass` named `Cyclic#3` only, a `Task` element with
`Name = "VeryLongTa"` — the first 10 characters of the task name — with the
dotted source path, default memory class, language, and debug flag. -/
theorem deployTask_truncates_to_ten :
    "VeryLongTaskName123".take 10 = "VeryLongTa" ∧
    deployTask initialSwTable ["TestProgram"] "VeryLongTaskName123" "Cyclic#3" "IEC" =
      [⟨"Cyclic#1", []⟩, ⟨"Cyclic#2", []⟩,
       ⟨"Cyclic#3", [createTaskElementAttrs ["TestProgram"] "VeryLongTaskName123" "IEC" "UserROM"]⟩,
       ⟨"Cyclic#4", []⟩, ⟨"Cyclic#5", []⟩, ⟨"Cyclic#6", []⟩, ⟨"Cyclic#7", []⟩, ⟨"Cyclic#8", []⟩] ∧
    createTaskElementAttrs ["TestProgram"] "VeryLongTaskName123" "IEC" "UserROM" =
      [("Name", "VeryLongTa"), ("Source", "TestProgram.VeryLongTaskName123.prg"),
       ("Memory", "UserROM"), ("Language", "IEC"), ("Debugging", "true")] :=
  ⟨rfl, rfl, rfl⟩

/-- C9 counterexample: a deployment table whose file already holds
`[Libraries, Cyclic#2]` loads into
`[Cyclic#1, Libraries, Cyclic#3, ..., Cyclic#8, Cyclic#2]` — the missing
classes are inserted at fixed indices around the preexisting nodes, so the
result is *not* in the order `Cyclic#1..Cyclic#8` then `Libraries`. -/
theorem swDeploymentInit_order_cex :
    swDeploymentInit [librariesElem, taskClassElem 2] =
      [taskClassElem 1, librariesElem, taskClassElem 3, taskClassElem 4, taskClassElem 5,
       taskClassElem 6, taskClassElem 7, taskClassElem 8, taskClassElem 2] ∧
    swDeploymentInit [librariesElem, taskClassElem 2] ≠
      [taskClassElem 1, taskClassElem 2, taskClassElem 3, taskClassElem 4, taskClassElem 5,
       taskClassElem 6, taskClassElem 7, taskClassElem 8, librariesElem] :=
  ⟨rfl, by decide⟩

theorem mem_insertAt {x : SwElem} {cs : List SwElem} (idx : Nat) (e : SwElem)
    (hx : x ∈ cs) : x ∈ insertAt cs idx e := by
  unfold insertAt
  rw [← List.take_append_drop idx cs] at hx
  rcases List.mem_append.mp hx with h | h
  · exact List.mem_append.mpr (Or.inl h)
  · exact List.mem_append.mpr (Or.inr (List.mem_cons_of_mem _ h))

theorem containsTaskClass_swInitStep_pres {cs : List SwElem} {n : Nat} (i : Nat)
    (h : containsTaskClass cs n = true) :
    containsTaskClass (swInitStep cs i) n = true := by
  unfold swInitStep
  cases hf : findTaskClass cs ("Cyclic#" ++ toString (i + 1)) with
  | some e => exact h
  | none =>
    rcases List.any_eq_true.mp h with ⟨x, hx, hpx⟩
    exact List.any_eq_true.mpr ⟨x, mem_insertAt _ _ hx, hpx⟩

theorem containsTaskClass_swInitStep_self (cs : List SwElem) (i : Nat) :
    containsTaskClass (swInitStep cs i) (i + 1) = true := by
  unfold swInitStep
  cases hf : findTaskClass cs ("Cyclic#" ++ toString (i + 1)) with
  | some e =>
    have hm := List.mem_of_find?_eq_some hf
    have hp := List.find?_some hf
    exact List.any_eq_true.mpr ⟨e, hm, hp⟩
  | none =>
    refine List.any_eq_true.mpr ⟨taskClassElem (i + 1), ?_, ?_⟩
    · unfold insertAt
      exact List.mem_append.mpr (Or.inr (List.mem_cons_self _ _))
    · simp [taskClassElem, getAttr]

theorem containsTaskClass_foldl_pres (l : List Nat) {cs : List SwElem} {n : Nat}
    (h : containsTaskClass cs n = true) :
    containsTaskClass (l.foldl swInitStep cs) n = true := by
  induction l generalizing cs with
  | nil => exact h
  | cons a l ih => exact ih (containsTaskClass_swInitStep_pres a h)

theorem containsTaskClass_foldl_est (l : List Nat) (cs : List SwElem) (i : Nat)
    (hi : i ∈ l) : containsTaskClass (l.foldl swInitStep cs) (i + 1) = true := by
  induction l generalizing cs with
  | nil => cases hi
  | cons a l ih =>
    rcases List.mem_cons.mp hi with rfl | hi2
    · exact containsTaskClass_foldl_pres l (containsTaskClass_swInitStep_self cs i)
    · exact ih _ hi2

theorem swDeploymentInit_eq (cs : List SwElem) :
    swDeploymentInit cs =
      match (List.foldl swInitStep cs (List.range 8)).find?
          (fun e => e.tag == "Libraries") with
      | some _ => List.foldl swInitStep cs (List.range 8)
      | none => List.foldl swInitStep cs (List.range 8) ++ [librariesElem] := rfl

/-- C9 (amended): after `SwDeploymentTable` load, the document contains a
`TaskClass` node named `Cyclic#N` for every `N` in `1..8` and a `Libraries`
node, each auto-created if absent; and when the input file has none of
these nodes the result is exactly `Cyclic#1..Cyclic#8` followed by
`Libraries`.  (Preexisting nodes keep their old positions and duplicates
are not removed, so "exactly 8, in that fixed relative order" does not hold
for every input — see the counterexample.) -/
theorem swDeploymentInit_ensures (cs : List SwElem) :
    ((List.range 8).all (fun i => containsTaskClass (swDeploymentInit cs) (i + 1))) = true ∧
    containsLibrariesNode (swDeploymentInit cs) = true ∧
    swDeploymentInit [] =
      [taskClassElem 1, taskClassElem 2, taskClassElem 3, taskClassElem 4,
       taskClassElem 5, taskClassElem 6, taskClassElem 7, taskClassElem 8, librariesElem] := by
  refine ⟨?_, ?_, rfl⟩
  · refine List.all_eq_true.mpr ?_
    intro i hi
    have hest := containsTaskClass_foldl_est (List.range 8) cs i hi
    rw [swDeploymentInit_eq]
    cases hf : (List.foldl swInitStep cs (List.range 8)).find?
        (fun e => e.tag == "Libraries") with
    | some e => exact hest
    | none =>
      rcases List.any_eq_true.mp hest with ⟨x, hx, hpx⟩
      exact List.any_eq_true.mpr ⟨x, List.mem_append.mpr (Or.inl hx), hpx⟩
  · rw [swDeploymentInit_eq]
    cases hf : (List.foldl swInitStep cs (List.range 8)).find?
        (fun e => e.tag == "Libraries") with
    | some e =>
      have hm := List.mem_of_find?_eq_some hf
      have hp := List.find?_some hf
      exact List.any_eq_true.mpr ⟨e, hm, hp⟩
    | none =>
      refine List.any_eq_true.mpr ⟨librariesElem, ?_, ?_⟩
      · exact List.mem_append.mpr (Or.inr (List.mem_cons_self _ _))
      · rfl

theorem consistentXml_condSetTail (a b : Xml) (i : String)
    (h : consistentXml a b = true) : consistentXml a (condSetTail i b) = true := by
  obtain ⟨tag, attrs, text, tl, children⟩ := a
  obtain ⟨btag, battrs, btext, btl, bchildren⟩ := b
  by_cases hb : blankText btl = true
  · simp only [condSetTail, hb, if_true]
    simp only [consistentXml, Bool.and_eq_true, Bool.or_eq_true] at h ⊢
    obtain ⟨⟨⟨⟨h1, h2⟩, h3⟩, h4⟩, h5⟩ := h
    refine ⟨⟨⟨⟨h1, h2⟩, h3⟩, ?_⟩, h5⟩
    rcases h4 with h4 | h4
    · exact Or.inl h4
    · exact Or.inl ((beq_iff_eq.mp h4) ▸ hb)
  · simpa [condSetTail, hb] using h

theorem consistentChildren_setLastTail (i : String) :
    ∀ cs ds, consistentChildren cs ds = true →
      consistentChildren cs (setLastTail i ds) = true
  | cs, [], h => by simpa [setLastTail] using h
  | cs, [d], h => by
    cases cs with
    | nil => simp [consistentChildren] at h
    | cons c cs' =>
      cases cs' with
      | nil =>
        simp only [setLastTail]
        simp only [consistentChildren, Bool.and_eq_true] at h ⊢
        exact ⟨consistentXml_condSetTail _ _ _ h.1, h.2⟩
      | cons c2 cs'' =>
        simp [consistentChildren] at h
  | cs, d :: d2 :: ds, h => by
    cases cs with
    | nil => simp [consistentChildren] at h
    | cons c cs' =>
      simp only [setLastTail]
      simp only [consistentChildren, Bool.and_eq_true] at h ⊢
      exact ⟨h.1, consistentChildren_setLastTail i cs' (d2 :: ds) h.2⟩

mutual

theorem consistentXml_indentXml (level : Nat) (e : Xml) :
    consistentXml e (indentXml level e) = true := by
  obtain ⟨tag, attrs, text, tl, children⟩ := e
  cases children with
  | nil =>
    simp [indentXml, consistentXml, consistentChildren]
    by_cases hp : ¬level = 0 ∧ blankText tl = true
    · exact Or.inl hp.2
    · right
      rw [if_neg hp]
  | cons c cs =>
    have hcc := consistentChildren_setLastTail (indentStr level) (c :: cs) _
      (consistentChildren_indentChildren (level + 1) (c :: cs))
    by_cases ht : blankText text = true <;> by_cases hl : blankText tl = true <;>
      simp [indentXml, consistentXml, ht, hl, hcc]

theorem consistentChildren_indentChildren (level : Nat) (cs : List Xml) :
    consistentChildren cs (indentChildren level cs) = true := by
  cases cs with
  | nil => simp [indentChildren, consistentChildren]
  | cons c cs' =>
    simp only [indentChildren]
    simp only [consistentChildren, Bool.and_eq_true]
    exact ⟨consistentXml_indentXml level c, consistentChildren_indentChildren level cs'⟩

end

theorem indentXml_tag (level : Nat) (e : Xml) : (indentXml level e).tag = e.tag := by
  obtain ⟨tag, attrs, text, tl, children⟩ := e
  cases children <;> rfl

/-- C7: `xmlAsFile.write` with no intervening mutation preserves every
element's tag, attributes, and non-whitespace text/tail content
(`consistentXml` states this recursively, so in particular for every
`Object` and `Dependency` element; only whitespace-only text/tail used for
indentation may change), and the namespace `write` re-derives and
registers — taken from the root tag, which `_indentXml` never touches — is
identical to the loaded one. -/
theorem indentXml_roundtrip_preserves (e : Xml) (level : Nat) :
    consistentXml e (indentXml level e) = true ∧
    getASNamespaceOfTag (indentXml level e).tag = getASNamespaceOfTag e.tag :=
  ⟨consistentXml_indentXml level e, by rw [indentXml_tag]⟩

theorem convertXmlTag_texts (m : LibList) (f t : String) :
    (convertXmlTag m f t).children.map ObjElem.text = m.children.map ObjElem.text := by
  unfold convertXmlTag
  split
  · simp only [List.map_map]
    apply List.map_congr_left
    intro c _
    by_cases h : t = "Objects" <;> simp [h]
  · rfl

theorem addObjectElementCore_texts (m : LibList) (typ lang name : String) :
    (addObjectElementCore m typ lang name).children.map ObjElem.text =
      m.children.map ObjElem.text ++ [name] := by
  simp only [addObjectElementCore]
  split
  · rw [convertXmlTag_texts]
    simp [createPkgElementCore]
  · simp [createPkgElementCore]

theorem synchronizeStep_eq (typeOf langOf : String → String) (used : List String)
    (acc : LibList) (item : String) :
    synchronizeStep typeOf langOf used acc item =
      if syncAddable used item then
        addObjectElementCore acc (typeOf item) (langOf item) item
      else acc := by
  unfold synchronizeStep syncAddable
  by_cases h1 : used.contains item = true <;>
    by_cases h2 : (splitextExt item == ".lby") = true <;>
      by_cases h3 : (item == "SG4" || item == "SG3" || item == "SGC") = true <;>
        simp [h1, h2, h3]

theorem foldl_synchronizeStep_texts (typeOf langOf : String → String)
    (used : List String) (l : List String) (acc : LibList) :
    ((l.foldl (synchronizeStep typeOf langOf used) acc).children.map ObjElem.text) =
      acc.children.map ObjElem.text ++ l.filter (syncAddable used) := by
  induction l generalizing acc with
  | nil => simp
  | cons a l ih =>
    rw [List.foldl_cons, synchronizeStep_eq]
    by_cases ha : syncAddable used a = true
    · rw [if_pos ha, List.filter_cons_of_pos ha, ih, addObjectElementCore_texts]
      simp
    · rw [if_neg (by simp [ha]), List.filter_cons_of_neg (by simp [ha]), ih]

theorem foldl_synchronizeStep_noop (typeOf langOf : String → String)
    (used : List String) (l : List String) (acc : LibList)
    (h : ∀ x ∈ l, syncAddable used x = false) :
    l.foldl (synchronizeStep typeOf langOf used) acc = acc := by
  induction l generalizing acc with
  | nil => rfl
  | cons a l ih =>
    rw [List.foldl_cons, synchronizeStep_eq,
      if_neg (by simp [h a (List.mem_cons_self a l)])]
    exact ih acc (fun x hx => h x (List.mem_cons_of_mem a hx))

theorem strContains_eq_true_iff (l : List String) (a : String) :
    l.contains a = true ↔ a ∈ l := List.elem_iff

/-- The `Library.synchronize` half of the synchronize-idempotence picture:
unlike `Package.synchPackageFile`, `Library.synchronize` collects its
removals *before* mutating, and it is idempotent for every manifest,
directory listing, and filesystem: the second call leaves the manifest
unchanged, removes nothing, and appends nothing. -/
theorem librarySynchronize_idempotent (items : List String)
    (typeOf langOf : String → String) (m : LibList) :
    librarySynchronize items typeOf langOf (librarySynchronize items typeOf langOf m) =
      librarySynchronize items typeOf langOf m ∧
    syncRemoved items (librarySynchronize items typeOf langOf m) = [] ∧
    syncAppended items (librarySynchronize items typeOf langOf m) = [] := by
  set m1 := librarySynchronize items typeOf langOf m with hm1
  set used1 := (m.children.filter (fun o => items.contains o.text)).map
    (fun o => o.text) with hused1
  have htexts : m1.children.map ObjElem.text =
      (m.children.filter (fun o => items.contains o.text)).map ObjElem.text ++
        items.filter (syncAddable used1) := by
    rw [hm1]
    exact foldl_synchronizeStep_texts _ _ _ _ _
  have hall : ∀ o ∈ m1.children, items.contains o.text = true := by
    intro o ho
    have hmemt : o.text ∈ m1.children.map ObjElem.text := List.mem_map_of_mem _ ho
    rw [htexts] at hmemt
    rcases List.mem_append.mp hmemt with h | h
    · rcases List.mem_map.mp h with ⟨o2, ho2, heq⟩
      rw [← heq]
      exact (List.mem_filter.mp ho2).2
    · exact (strContains_eq_true_iff _ _).mpr (List.mem_of_mem_filter h)
  have hkept : m1.children.filter (fun o => items.contains o.text) = m1.children :=
    List.filter_eq_self.mpr hall
  have happ : items.filter (syncAddable (m1.children.map (fun o => o.text))) = [] := by
    apply List.filter_eq_nil_iff.mpr
    intro item hitem hadd
    rw [syncAddable, Bool.and_eq_true, Bool.and_eq_true] at hadd
    obtain ⟨⟨hc2, hlby⟩, hsg⟩ := hadd
    have hnotmem : item ∉ m1.children.map ObjElem.text := by
      intro hmem
      have h1 : (m1.children.map (fun o => o.text)).contains item = true :=
        (strContains_eq_true_iff _ _).mpr hmem
      rw [h1] at hc2
      simp at hc2
    have hc1 : used1.contains item = false := by
      cases hq : used1.contains item with
      | false => rfl
      | true =>
        exfalso
        apply hnotmem
        rw [htexts]
        exact List.mem_append.mpr (Or.inl ((strContains_eq_true_iff _ _).mp hq))
    have hadd1 : syncAddable used1 item = true := by
      rw [syncAddable, Bool.and_eq_true, Bool.and_eq_true]
      refine ⟨⟨?_, hlby⟩, hsg⟩
      rw [hc1]
      rfl
    apply hnotmem
    rw [htexts]
    exact List.mem_append.mpr (Or.inr (List.mem_filter.mpr ⟨hitem, hadd1⟩))
  have hrem : syncRemoved items m1 = [] := by
    simp only [syncRemoved]
    apply List.filter_eq_nil_iff.mpr
    intro o ho
    rw [hall o ho]
    simp
  have happ2 : syncAppended items m1 = [] := by
    simp only [syncAppended]
    rw [hkept]
    exact happ
  refine ⟨?_, hrem, happ2⟩
  conv_lhs => simp only [librarySynchronize]
  rw [hkept]
  have hbase : ({ m1 with children := m1.children } : LibList) = m1 := rfl
  rw [hbase]
  apply foldl_synchronizeStep_noop
  intro x hx
  cases hq : syncAddable (m1.children.map (fun o => o.text)) x with
  | false => rfl
  | true => exact absurd hq (List.filter_eq_nil_iff.mp happ x hx)

end ASPython
